import Mathlib

/-!
A shallow embedding of the `lyraproj/semver` Go package (files
`semver/version.go` and `semver/versionrange.go`) together with theorems
settling the specification claims about it.

Conventions of the embedding:
* Go `int` (64-bit) is modelled as `Int`; every arithmetic operation that can
  overflow in Go is wrapped with `wrap64`, which reduces modulo `2^64` into
  `[-2^63, 2^63)`, exactly the two's-complement wrap-around Go guarantees.
* Go's `[]interface{}` pre-release/build slices (which distinguish a nil slice
  from a non-nil one) are modelled as `Option (List Segment)`, `none` standing
  for the nil slice.
* Functions returning `(T, error)` are modelled as `Except String T`; the
  error strings follow the Go sources.
* Methods writing to an `io.Writer` are modelled as functions returning the
  written `String`.
-/

namespace Semver

/-- `2^63 - 1`, Go's `math.MaxInt64`. -/
def maxI64 : Int := 9223372036854775807

/-- `-2^63`, Go's `math.MinInt64`. -/
def minI64 : Int := -9223372036854775808

/-- Two's-complement wrap-around of Go 64-bit `int` arithmetic: reduce modulo
`2^64` into the interval `[-2^63, 2^63)`. -/
def wrap64 (n : Int) : Int :=
  (n + 9223372036854775808) % 18446744073709551616 - 9223372036854775808

/-- One dot-separated pre-release / build identifier segment.  In Go this is an
`interface{}` holding either an `int` (produced by `mungePart` when
`strconv.ParseInt` succeeds) or a `string`. -/
inductive Segment where
  | i (n : Int)
  | s (v : String)
deriving DecidableEq

/-- `semver.version`: the unexported struct backing the `Version` interface. -/
structure Version where
  major : Int
  minor : Int
  patch : Int
  preRelease : Option (List Segment)
  build : Option (List Segment)
deriving DecidableEq

/-- Byte-wise `strings.Compare` (−1/0/1).  UTF-8 byte order coincides with
code-point order, so comparing `Char` code points is faithful. -/
def charsCompare : List Char → List Char → Int
  | [], [] => 0
  | [], _ :: _ => -1
  | _ :: _, [] => 1
  | a :: as, b :: bs =>
    if a.toNat < b.toNat then -1
    else if b.toNat < a.toNat then 1
    else charsCompare as bs

/-- `strings.Compare` on whole strings. -/
def stringsCompare (a b : String) : Int :=
  charsCompare a.toList b.toList

/-- The common-prefix loop of `comparePreReleases`, followed by the
`p1Size - p2Size` tail (recursion preserves the size difference).  Numeric
segments compare by (wrapped) integer subtraction, numeric sorts below
alphanumeric, alphanumeric compares via `strings.Compare`. -/
def segsCompare : List Segment → List Segment → Int
  | [], [] => 0
  | [], l2 => wrap64 (0 - (l2.length : Int))
  | l1, [] => wrap64 ((l1.length : Int) - 0)
  | x :: xs, y :: ys =>
    match x, y with
    | .i a, .i b =>
        let c := wrap64 (a - b)
        if c ≠ 0 then c else segsCompare xs ys
    | .i _, .s _ => -1
    | .s _, .i _ => 1
    | .s a, .s b =>
        let c := stringsCompare a b
        if c ≠ 0 then c else segsCompare xs ys

/-- `comparePreReleases`: a nil (absent) pre-release sorts after any present
one; two present sequences compare segment-wise. -/
def comparePreReleases : Option (List Segment) → Option (List Segment) → Int
  | none, none => 0
  | none, some _ => 1
  | some _, none => -1
  | some l1, some l2 => segsCompare l1 l2

/-- `(*version).CompareTo`: major, then minor, then patch (Go `int`
subtractions, hence wrapped), then pre-release; build metadata ignored. -/
def Version.CompareTo (v o : Version) : Int :=
  let c1 := wrap64 (v.major - o.major)
  if c1 ≠ 0 then c1
  else
    let c2 := wrap64 (v.minor - o.minor)
    if c2 ≠ 0 then c2
    else
      let c3 := wrap64 (v.patch - o.patch)
      if c3 ≠ 0 then c3
      else comparePreReleases v.preRelease o.preRelease

/-- `equalSegments`: nil equals only nil; otherwise length and element-wise
interface equality. -/
def equalSegments : Option (List Segment) → Option (List Segment) → Bool
  | none, none => true
  | none, some _ => false
  | some _, none => false
  | some l1, some l2 => l1 == l2

/-- `(*version).tripletEquals`. -/
def Version.tripletEquals (v o : Version) : Bool :=
  v.major == o.major && v.minor == o.minor && v.patch == o.patch

/-- `(*version).TripletEquals`. -/
def Version.TripletEquals (v o : Version) : Bool :=
  v.tripletEquals o

/-- `(*version).Equals`: triplet plus pre-release plus build equality. -/
def Version.Equals (v o : Version) : Bool :=
  v.tripletEquals o && equalSegments v.preRelease o.preRelease
    && equalSegments v.build o.build

/-- `(*version).IsStable`: true iff the pre-release slice is nil. -/
def Version.IsStable (v : Version) : Bool :=
  v.preRelease.isNone

/-- `(*version).NextPatch`: patch+1 (wrapped Go addition), pre-release and
build stripped. -/
def Version.NextPatch (v : Version) : Version :=
  ⟨v.major, v.minor, wrap64 (v.patch + 1), none, none⟩

/-- `(*version).ToStable`: pre-release stripped, build kept. -/
def Version.ToStable (v : Version) : Version :=
  ⟨v.major, v.minor, v.patch, none, v.build⟩

/-- One segment rendered as by Go's `%v` verb. -/
def Segment.render : Segment → String
  | .i n => toString n
  | .s v => v

/-- `writeParts`: dot-joined segments. -/
def writeParts (l : List Segment) : String :=
  String.intercalate "." (l.map Segment.render)

/-- `(*version).ToString`: `major.minor.patch[-pre][+build]`. -/
def Version.ToString (v : Version) : String :=
  toString v.major ++ "." ++ toString v.minor ++ "." ++ toString v.patch
    ++ (match v.preRelease with
        | none => ""
        | some l => "-" ++ writeParts l)
    ++ (match v.build with
        | none => ""
        | some l => "+" ++ writeParts l)

/-- `var minPrereleases []interface{}`: declared without an initializer and
never assigned anywhere in the package, so it is the nil slice. -/
def minPrereleases : Option (List Segment) := none

/-- `var Max Version = &version{math.MaxInt64, math.MaxInt64, math.MaxInt64, nil, nil}`. -/
def Max : Version := ⟨maxI64, maxI64, maxI64, none, none⟩

/-- `var Min = &version{0, 0, 0, minPrereleases, nil}`. -/
def Min : Version := ⟨0, 0, 0, minPrereleases, none⟩

/-- `var Zero = &version{0, 0, 0, nil, nil}`. -/
def Zero : Version := ⟨0, 0, 0, none, none⟩

example : Version.CompareTo ⟨1, 0, 0, some [.s "rc1"], none⟩ ⟨1, 0, 0, none, none⟩ < 0 := by decide
example : Version.CompareTo Min ⟨0, 0, 0, some [.s "alpha"], none⟩ > 0 := by decide
example : Version.ToString ⟨1, 2, 3, some [.s "rc", .i 1], some [.s "b7"]⟩ = "1.2.3-rc.1+b7" := by decide

/-- `abstractRange` and its implementations.  Go uses a closed set of pointer
types (`eqRange`, `gtRange`, `gtEqRange`, `ltRange`, `ltEqRange`,
`startEndRange`), modelled as one inductive; the five simple shapes each embed
a `simpleRange` (which embeds a `Version`), and `startEndRange` holds a start
comparator and an end comparator. -/
inductive ARange where
  | eq (v : Version)
  | gt (v : Version)
  | gtEq (v : Version)
  | lt (v : Version)
  | ltEq (v : Version)
  | se (startCompare endCompare : ARange)
deriving DecidableEq

/-- `start()`: the five simple shapes use `simpleRange`'s default `Min` unless
they override it (`eqRange`, `gtRange`, `gtEqRange` return their version);
`startEndRange` delegates to its start comparator. -/
def ARange.start : ARange → Version
  | .eq v => v
  | .gt v => v
  | .gtEq v => v
  | .lt _ => Min
  | .ltEq _ => Min
  | .se a _ => a.start

/-- `end()`: `simpleRange` default is `Max`; `eqRange`, `ltRange`, `ltEqRange`
override with their version; `startEndRange` delegates to its end comparator. -/
def ARange.endV : ARange → Version
  | .eq v => v
  | .gt _ => Max
  | .gtEq _ => Max
  | .lt v => v
  | .ltEq v => v
  | .se _ b => b.endV

/-- `isExcludeStart()`: only `gtRange` overrides `simpleRange`'s `false`. -/
def ARange.isExcludeStart : ARange → Bool
  | .gt _ => true
  | .se a _ => a.isExcludeStart
  | _ => false

/-- `isExcludeEnd()`: NO simple shape overrides `simpleRange`'s `false` —
unlike `isExcludeStart`, which `gtRange` overrides, `ltRange` defines no
`isExcludeEnd` of its own, so the promoted default `false` is used;
`startEndRange` delegates to its end comparator (again ultimately `false`).
Hence `isExcludeEnd()` is `false` for every bound in this program, although
the `VersionRange` interface documents `IsExcludeEnd` as "true unless the
end version is included in the range". -/
def ARange.isExcludeEnd : ARange → Bool
  | .se _ b => b.isExcludeEnd
  | _ => false

/-- `isLowerBound()`: `eqRange`/`gtEqRange` unless at `Min`, `gtRange` always,
`ltRange`/`ltEqRange` never (`simpleRange` default). -/
def ARange.isLowerBound : ARange → Bool
  | .eq v => !(v.Equals Min)
  | .gt _ => true
  | .gtEq v => !(v.Equals Min)
  | .lt _ => false
  | .ltEq _ => false
  | .se a _ => a.isLowerBound

/-- `isUpperBound()`: `eqRange`/`ltEqRange` unless at `Max`, `ltRange` always,
`gtRange`/`gtEqRange` never (`simpleRange` default). -/
def ARange.isUpperBound : ARange → Bool
  | .eq v => !(v.Equals Max)
  | .gt _ => false
  | .gtEq _ => false
  | .lt _ => true
  | .ltEq v => !(v.Equals Max)
  | .se _ b => b.isUpperBound

/-- `includes(v)` of each shape, via `CompareTo` (build-blind ordering). -/
def ARange.includes : ARange → Version → Bool
  | .eq r, v => r.CompareTo v == 0
  | .gt r, v => r.CompareTo v < 0
  | .gtEq r, v => r.CompareTo v ≤ 0
  | .lt r, v => 0 < r.CompareTo v
  | .ltEq r, v => 0 ≤ r.CompareTo v
  | .se a b, v => a.includes v && b.includes v

/-- `testPrerelease(v)`: `simpleRange` answers "my endpoint is unstable and
shares v's triplet"; `startEndRange` asks either comparator. -/
def ARange.testPrerelease : ARange → Version → Bool
  | .eq r, v => !r.IsStable && r.TripletEquals v
  | .gt r, v => !r.IsStable && r.TripletEquals v
  | .gtEq r, v => !r.IsStable && r.TripletEquals v
  | .lt r, v => !r.IsStable && r.TripletEquals v
  | .ltEq r, v => !r.IsStable && r.TripletEquals v
  | .se a b, v => a.testPrerelease v || b.testPrerelease v

/-- `var highestLb = &gtRange{simpleRange{Max}}`. -/
def highestLb : ARange := .gt Max

/-- `var lowestLb = &gtEqRange{simpleRange{Min}}`. -/
def lowestLb : ARange := .gtEq Min

/-- `var lowestUb = &ltRange{simpleRange{Min}}`. -/
def lowestUb : ARange := .lt Min

/-- `asLowerBound()`: `eqRange`/`gtRange`/`gtEqRange` return themselves,
`ltRange`/`ltEqRange` fall back to `simpleRange`'s `highestLb`,
`startEndRange` returns its start comparator. -/
def ARange.asLowerBound : ARange → ARange
  | .eq v => .eq v
  | .gt v => .gt v
  | .gtEq v => .gtEq v
  | .lt _ => highestLb
  | .ltEq _ => highestLb
  | .se a _ => a

/-- `asUpperBound()`: `eqRange`/`ltRange`/`ltEqRange` return themselves,
`gtRange`/`gtEqRange` fall back to `simpleRange`'s `lowestUb`,
`startEndRange` returns its end comparator. -/
def ARange.asUpperBound : ARange → ARange
  | .eq v => .eq v
  | .gt _ => lowestUb
  | .gtEq _ => lowestUb
  | .lt v => .lt v
  | .ltEq v => .ltEq v
  | .se _ b => b

/-- `equals(or)`: same concrete type and `Version.Equals` endpoints
(`startEndRange` compares both comparators recursively). -/
def ARange.equals : ARange → ARange → Bool
  | .eq a, .eq b => a.Equals b
  | .gt a, .gt b => a.Equals b
  | .gtEq a, .gtEq b => a.Equals b
  | .lt a, .lt b => a.Equals b
  | .ltEq a, .ltEq b => a.Equals b
  | .se a1 b1, .se a2 b2 => a1.equals a2 && b1.equals b2
  | _, _ => false

/-- `ToString`: comparator text.  `eqRange` defines no `ToString` of its own,
so the method promoted from the embedded `Version` prints the bare version. -/
def ARange.render : ARange → String
  | .eq v => v.ToString
  | .gt v => ">" ++ v.ToString
  | .gtEq v => ">=" ++ v.ToString
  | .lt v => "<" ++ v.ToString
  | .ltEq v => "<=" ++ v.ToString
  | .se a b => a.render ++ " " ++ b.render

/-- `intersection(ra, rb)`: `nil` is modelled as `none`. -/
def intersection (ra rb : ARange) : Option ARange :=
  let cmp1 := ra.start.CompareTo rb.endV
  if decide (0 < cmp1) then none
  else if decide (cmp1 = 0) then
    if ra.isExcludeStart || rb.isExcludeEnd then none
    else some (.eq ra.start)
  else
    let cmp2 := rb.start.CompareTo ra.endV
    if decide (0 < cmp2) then none
    else if decide (cmp2 = 0) then
      if rb.isExcludeStart || ra.isExcludeEnd then none
      else some (.eq rb.start)
    else
      let cmp3 := ra.start.CompareTo rb.start
      let first := if decide (cmp3 < 0) then rb
        else if decide (0 < cmp3) then ra
        else if ra.isExcludeStart then ra
        else rb
      let last := if decide (0 < ra.endV.CompareTo rb.endV) then rb
        else if decide (ra.endV.CompareTo rb.endV < 0) then ra
        else if ra.isExcludeEnd then ra
        else rb
      if !last.isUpperBound then some first
      else if !first.isLowerBound then some last
      else some (.se first.asLowerBound last.asUpperBound)

/-- `fromTo(ra, rb)`: interval from `ra`'s start edge to `rb`'s end edge,
preserving each side's exclusivity. -/
def fromTo (ra rb : ARange) : ARange :=
  .se (if ra.isExcludeStart then .gt ra.start else .gtEq ra.start)
    (if rb.isExcludeEnd then .lt rb.endV else .ltEq rb.endV)

/-- `union(ra, rb)`: overlap merge (each start included in the other) or one
of five adjacency cases; otherwise `nil`. -/
def union (ra rb : ARange) : Option ARange :=
  if ra.includes rb.start || rb.includes ra.start then
    let cmpS := ra.start.CompareTo rb.start
    let start := if decide (cmpS < 0) then ra.start
      else if decide (0 < cmpS) then rb.start
      else ra.start
    let excludeStart := if decide (cmpS < 0) then ra.isExcludeStart
      else if decide (0 < cmpS) then rb.isExcludeStart
      else ra.isExcludeStart && rb.isExcludeStart
    let cmpE := ra.endV.CompareTo rb.endV
    let stop := if decide (0 < cmpE) then ra.endV
      else if decide (cmpE < 0) then rb.endV
      else ra.endV
    let excludeEnd := if decide (0 < cmpE) then ra.isExcludeEnd
      else if decide (cmpE < 0) then rb.isExcludeEnd
      else ra.isExcludeEnd && rb.isExcludeEnd
    some (.se (if excludeStart then .gt start else .gtEq start)
      (if excludeEnd then .lt stop else .ltEq stop))
  else if ra.isExcludeStart && rb.isExcludeStart
      && ra.start.CompareTo rb.start == 0 then
    some (fromTo ra rb)
  else if ra.isExcludeEnd && !rb.isExcludeStart
      && ra.endV.CompareTo rb.start == 0 then
    some (fromTo ra rb)
  else if rb.isExcludeEnd && !ra.isExcludeStart
      && rb.endV.CompareTo ra.start == 0 then
    some (fromTo rb ra)
  else if !ra.isExcludeEnd && !rb.isExcludeStart
      && ra.endV.NextPatch.CompareTo rb.start == 0 then
    some (fromTo ra rb)
  else if !rb.isExcludeEnd && !ra.isExcludeStart
      && rb.endV.NextPatch.CompareTo ra.start == 0 then
    some (fromTo rb ra)
  else none

/-- `asRestrictedAs(ra, vr)`: `vr` starts no later than `ra` and ends no
earlier, with exclusivity tie-breaks. -/
def asRestrictedAs (ra vr : ARange) : Bool :=
  let cmp1 := vr.start.CompareTo ra.start
  if decide (0 < cmp1)
      || (decide (cmp1 = 0) && !ra.isExcludeStart && vr.isExcludeStart) then
    false
  else
    let cmp2 := vr.endV.CompareTo ra.endV
    !(decide (cmp2 < 0)
      || (decide (cmp2 = 0) && !ra.isExcludeEnd && vr.isExcludeEnd))

/-- `semver.versionRange`: original text plus the list of alternative bounds. -/
structure VersionRange where
  originalString : String
  ranges : List ARange
deriving DecidableEq

/-- `var MatchAll VersionRange = &versionRange{`*`, []abstractRange{lowestLb}}`. -/
def MatchAll : VersionRange := ⟨"*", [lowestLb]⟩

/-- `var MatchNone VersionRange = &versionRange{`<0.0.0`, []abstractRange{lowestUb}}`. -/
def MatchNone : VersionRange := ⟨"<0.0.0", [lowestUb]⟩

/-- `ExactVersionRange(v)`. -/
def ExactVersionRange (v : Version) : VersionRange := ⟨"", [.eq v]⟩

/-- `(*versionRange).Includes(v)`: some alternative includes `v` and `v` is
stable or passes that alternative's pre-release test.  (The Go method also
rejects a nil `Version`, which has no counterpart here.) -/
def VersionRange.Includes (r : VersionRange) (v : Version) : Bool :=
  r.ranges.any fun ar => ar.includes v && (v.IsStable || ar.testPrerelease v)

/-- The length check plus index-wise `equals` loop of
`(*versionRange).Equals`, fused into one recursion. -/
def eqRangesList : List ARange → List ARange → Bool
  | [], [] => true
  | a :: as, b :: bs => a.equals b && eqRangesList as bs
  | _, _ => false

/-- `(*versionRange).Equals(other)`. -/
def VersionRange.Equals (r o : VersionRange) : Bool :=
  eqRangesList r.ranges o.ranges

/-- `(*versionRange).IsAsRestrictiveAs(other)`: every alternative of the
receiver must find an alternative of `other` with non-nil intersection that
also passes `asRestrictedAs`. -/
def VersionRange.IsAsRestrictiveAs (r o : VersionRange) : Bool :=
  r.ranges.all fun ar =>
    o.ranges.any fun ao => (intersection ar ao).isSome && asRestrictedAs ar ao

/-- `(*versionRange).ToNormalizedString`: alternatives joined by `" || "`.
(Go indexes `ranges[0]` unconditionally; the empty case is unreachable.) -/
def VersionRange.NormalizedString (r : VersionRange) : String :=
  match r.ranges with
  | [] => ""
  | a :: rest => rest.foldl (fun acc x => acc ++ " || " ++ x.render) a.render

/-- `(*versionRange).ToString` / `String()`: the original text verbatim when
present, else the normalized form. -/
def VersionRange.render (r : VersionRange) : String :=
  if r.originalString = "" then r.NormalizedString else r.originalString

/-- The inner `for _, y := range ranges` loop of `newVersionRange`: try to
`union` the candidate `x` with each `y` in order, collecting the unmerged
elements; returns the final candidate, the unmerged list, and whether any
merge happened. -/
def mergePass (x : ARange) : List ARange → ARange × List ARange × Bool
  | [] => (x, [], false)
  | y :: ys =>
    match union x y with
    | none =>
        let p := mergePass x ys
        (p.1, y :: p.2.1, p.2.2)
    | some m =>
        let p := mergePass m ys
        (p.1, p.2.1, true)

theorem mergePass_len (x : ARange) (ys : List ARange) :
    (mergePass x ys).2.1.length ≤ ys.length := by
  induction ys generalizing x with
  | nil => simp [mergePass]
  | cons y ys ih =>
    simp only [mergePass]
    cases union x y with
    | none => simpa using ih x
    | some m => exact le_trans (ih m) (Nat.le_succ _)

theorem mergePass_lt (x : ARange) (ys : List ARange)
    (h : (mergePass x ys).2.2 = true) :
    (mergePass x ys).2.1.length < ys.length := by
  induction ys generalizing x with
  | nil => simp [mergePass] at h
  | cons y ys ih =>
    simp only [mergePass] at h ⊢
    cases hu : union x y with
    | none =>
      rw [hu] at h
      simpa using ih x (by simpa using h)
    | some m =>
      exact Nat.lt_succ_of_le (mergePass_len m ys)

/-- The `for len(ranges) > 1` loop of `newVersionRange`: repeatedly pop the
last element, run `mergePass` against the remaining ones, prepend the final
candidate to `result`, and continue on the unmerged rest; the leftover
(0 or 1 element) list is prepended at the end.  The loop shrinks `ranges` by
at least one element per iteration, so any fuel of at least `ranges.length`
makes the fuel-out branch (which coincides with the loop-exit branch)
unreachable; `innerLoop_fuel` below makes that precise. -/
def innerLoop : Nat → List ARange → List ARange → Bool → List ARange × Bool
  | 0, ranges, result, mh => (ranges ++ result, mh)
  | fuel + 1, ranges, result, mh =>
    if 1 < ranges.length then
      match ranges.getLast? with
      | none => (ranges ++ result, mh)
      | some x =>
        let p := mergePass x ranges.dropLast
        innerLoop fuel p.2.1 (p.1 :: result) (mh || p.2.2)
    else (ranges ++ result, mh)

theorem innerLoop_len (fuel : Nat) :
    ∀ (ranges result : List ARange) (mh : Bool),
      (innerLoop fuel ranges result mh).1.length ≤
        ranges.length + result.length := by
  induction fuel with
  | zero => intro ranges result mh; simp [innerLoop]
  | succ fuel ih =>
    intro ranges result mh
    rw [innerLoop]
    by_cases h : 1 < ranges.length
    · simp only [if_pos h]
      cases hx : ranges.getLast? with
      | none => simp
      | some x =>
        have hdl : ranges.dropLast.length = ranges.length - 1 :=
          List.length_dropLast ranges
        have hml := mergePass_len x ranges.dropLast
        have := ih (mergePass x ranges.dropLast).2.1
          ((mergePass x ranges.dropLast).1 :: result)
          (mh || (mergePass x ranges.dropLast).2.2)
        simp only [List.length_cons] at this
        dsimp only
        omega
    · simp only [if_neg h, List.length_append]
      omega

theorem innerLoop_lt (fuel : Nat) :
    ∀ (ranges result : List ARange),
      (innerLoop fuel ranges result false).2 = true →
      (innerLoop fuel ranges result false).1.length <
        ranges.length + result.length := by
  induction fuel with
  | zero =>
    intro ranges result hflag
    simp [innerLoop] at hflag
  | succ fuel ih =>
    intro ranges result hflag
    rw [innerLoop] at hflag ⊢
    by_cases h : 1 < ranges.length
    · simp only [if_pos h] at hflag ⊢
      cases hx : ranges.getLast? with
      | none =>
        rw [hx] at hflag
        simp at hflag
      | some x =>
        rw [hx] at hflag
        dsimp only at hflag ⊢
        have hdl : ranges.dropLast.length = ranges.length - 1 :=
          List.length_dropLast ranges
        have hml := mergePass_len x ranges.dropLast
        cases hf : (mergePass x ranges.dropLast).2.2 with
        | true =>
          have hstrict := mergePass_lt x ranges.dropLast hf
          have hle := innerLoop_len fuel
            (mergePass x ranges.dropLast).2.1
            ((mergePass x ranges.dropLast).1 :: result)
            (false || true)
          simp only [List.length_cons] at hle
          omega
        | false =>
          rw [hf] at hflag
          simp only [Bool.false_or] at hflag ⊢
          have := ih (mergePass x ranges.dropLast).2.1
            ((mergePass x ranges.dropLast).1 :: result) hflag
          simp only [List.length_cons] at this
          omega
    · simp only [if_neg h] at hflag
      exact absurd hflag (by decide)

theorem innerLoop_fuel (fuel : Nat) :
    ∀ (ranges result : List ARange) (mh : Bool), ranges.length ≤ fuel →
      innerLoop (fuel + 1) ranges result mh = innerLoop fuel ranges result mh := by
  induction fuel with
  | zero =>
    intro ranges result mh h
    have : ranges = [] := List.eq_nil_of_length_eq_zero (Nat.le_zero.mp h)
    subst this
    simp [innerLoop]
  | succ fuel ih =>
    intro ranges result mh h
    rw [innerLoop, innerLoop]
    by_cases h1 : 1 < ranges.length
    · simp only [if_pos h1]
      cases hx : ranges.getLast? with
      | none => rfl
      | some x =>
        dsimp only
        have hdl : ranges.dropLast.length = ranges.length - 1 :=
          List.length_dropLast ranges
        have hml := mergePass_len x ranges.dropLast
        exact ih (mergePass x ranges.dropLast).2.1
          ((mergePass x ranges.dropLast).1 :: result)
          (mh || (mergePass x ranges.dropLast).2.2) (by omega)
    · simp only [if_neg h1]

/-- The outer `for len(ranges) > 1 && mergeHappened` loop of
`newVersionRange`: run an inner pass (with enough fuel for it), repeat while
a merge happened.  Each repeated pass strictly shrinks the list
(`innerLoop_lt`), so fuel of at least `ranges.length` suffices
(`mergeLoop_fuel`); the fuel-out branch coincides with the loop-exit
branch. -/
def mergeLoop : Nat → List ARange → List ARange
  | 0, ranges => ranges
  | fuel + 1, ranges =>
    if 1 < ranges.length then
      let p := innerLoop ranges.length ranges [] false
      if p.2 then mergeLoop fuel p.1 else p.1
    else ranges

theorem mergeLoop_fuel (fuel : Nat) :
    ∀ ranges : List ARange, ranges.length ≤ fuel →
      mergeLoop (fuel + 1) ranges = mergeLoop fuel ranges := by
  induction fuel with
  | zero =>
    intro ranges h
    have : ranges = [] := List.eq_nil_of_length_eq_zero (Nat.le_zero.mp h)
    subst this
    simp [mergeLoop]
  | succ fuel ih =>
    intro ranges h
    rw [mergeLoop, mergeLoop]
    by_cases h1 : 1 < ranges.length
    · simp only [if_pos h1]
      cases hf : (innerLoop ranges.length ranges [] false).2 with
      | true =>
        have := innerLoop_lt ranges.length ranges [] hf
        simp only [List.length_nil, Nat.add_zero] at this
        simp only [if_pos rfl]
        exact ih _ (by omega)
      | false => simp
    · simp only [if_neg h1]

/-- `newVersionRange(vr, ranges)`: normalize the alternatives by repeated
merging; an empty list yields the `MatchNone` constant. -/
def newVersionRange (vr : String) (ranges : List ARange) : VersionRange :=
  let merged := mergeLoop ranges.length ranges
  if merged = [] then MatchNone else ⟨vr, merged⟩

/-- Go's `\s` character class: space, tab, newline, form feed, carriage
return. -/
def isWsChar (c : Char) : Bool :=
  c = ' ' || c.toNat = 9 || c.toNat = 10 || c.toNat = 12 || c.toNat = 13

/-- The character class `[><=~^]` of `opWsPattern` (also `[<>=~^]` of
`simplePattern`). -/
def isOpChar (c : Char) : Bool :=
  c = '>' || c = '<' || c = '=' || c = '~' || c = '^'

/-- `opWsPattern.ReplaceAllString(vr, "$1")` with
`opWsPattern = ([><=~^])(?:\s+|\s*v)`: scanning left to right, a comparator
character followed by whitespace keeps the comparator and drops the maximal
whitespace run (the preferred alternative `\s+`; a `v` after such a run
stays), and a comparator followed directly by `v` drops that `v`.  The
recursion computes the suffix first: since no match ever starts at a
whitespace character or deletes the first character of the remaining input,
the collapsed tail is recovered by dropping the leading whitespace run (resp.
the leading `v`) of the collapsed suffix. -/
def opWsCollapse : List Char → List Char
  | [] => []
  | c :: rest =>
    let sfx := opWsCollapse rest
    if isOpChar c then
      match rest with
      | [] => [c]
      | d :: _ =>
        if isWsChar d then c :: sfx.dropWhile isWsChar
        else if d = 'v' then c :: sfx.tail
        else c :: sfx
    else c :: sfx

/-- Split at each (leftmost-first, non-overlapping) literal `||`. -/
def barSplit : List Char → List (List Char)
  | '|' :: '|' :: rest => [] :: barSplit rest
  | c :: rest =>
    match barSplit rest with
    | p :: tail => (c :: p) :: tail
    | [] => [[c]]
  | [] => [[]]

/-- Drop a trailing whitespace run. -/
def trimWsRight (cs : List Char) : List Char :=
  (cs.reverse.dropWhile isWsChar).reverse

/-- Drop a leading whitespace run. -/
def trimWsLeft (cs : List Char) : List Char :=
  cs.dropWhile isWsChar

/-- Trim whitespace adjacent to the separators: every piece but the last
loses its trailing run, every piece but the first its leading run. -/
def trimAroundBars : Bool → List (List Char) → List (List Char)
  | _, [] => []
  | first, [p] => [if first then p else trimWsLeft p]
  | first, p :: rest =>
    (if first then trimWsRight p else trimWsLeft (trimWsRight p))
      :: trimAroundBars false rest

/-- `orSplit.Split` (pattern `\s*\|\|\s*`): split at each `||` and drop the
maximal whitespace runs around it.  Splitting on the literal `||` first and
trimming separator-adjacent whitespace afterwards produces the same pieces,
because the pattern's `\s*` arms consume exactly the maximal contiguous
whitespace runs around each `||`. -/
def orSplitList (cs : List Char) : List (List Char) :=
  trimAroundBars true (barSplit cs)

/-- `simpleSplit.Split` (pattern `\s+`): pieces between maximal whitespace
runs; leading/trailing whitespace contributes empty pieces, as with Go's
`regexp.Split`.  A piece boundary is emitted at the last character of each
whitespace run. -/
def wsSplitList : List Char → List (List Char)
  | [] => [[]]
  | c :: rest =>
    let ps := wsSplitList rest
    if isWsChar c then
      match rest with
      | d :: _ => if isWsChar d then ps else [] :: ps
      | [] => [] :: ps
    else
      match ps with
      | p :: tail => (c :: p) :: tail
      | [] => [[c]]

/-- The `xr` production `(x|X|\*|0|[1-9][0-9]*)`: a wildcard letter, a literal
star, a lone zero, or a digit run without leading zero; returns the matched
group text and the remaining input. -/
def parseXR : List Char → Option (String × List Char)
  | 'x' :: r => some ("x", r)
  | 'X' :: r => some ("X", r)
  | '*' :: r => some ("*", r)
  | '0' :: r => some ("0", r)
  | c :: r =>
    if c.isDigit then
      some (String.mk (c :: r.takeWhile Char.isDigit), r.dropWhile Char.isDigit)
    else none
  | [] => none

/-- `c` is in `[0-9A-Za-z-]`, the `part` character class of the range
grammar. -/
def isAlnumHyphen (c : Char) : Bool :=
  c.isAlpha || c.isDigit || c = '-'

/-- Split at every `.` (Go `strings.Split(s, ".")`), keeping empty pieces. -/
def splitDots : List Char → List (List Char)
  | '.' :: rest => [] :: splitDots rest
  | c :: rest =>
    match splitDots rest with
    | p :: tail => (c :: p) :: tail
    | [] => [[c]]
  | [] => [[]]

/-- `parts = part(\.part)*` with `part = [0-9A-Za-z-]+`: every dot-separated
piece is non-empty and uses only the allowed characters. -/
def validPartsLoose (s : String) : Bool :=
  (splitDots s.toList).all fun p => !p.isEmpty && p.all isAlnumHyphen

/-- `vPRParts`: like `validPartsLoose` but an all-digit piece must be `0` or
start with a non-zero digit (`vPRPart = 0|[1-9][0-9]*|[0-9]*[A-Za-z-]+[0-9A-Za-z-]*`;
any allowed piece containing a non-digit matches the third alternative). -/
def validPartsStrict (s : String) : Bool :=
  (splitDots s.toList).all fun p =>
    !p.isEmpty && p.all isAlnumHyphen
      && (!(p.all Char.isDigit) || p = ['0'] || !(p.headD ' ' = '0'))

/-- The `qualifier` of the range grammar, `(?:-(parts))?(?:\+(parts))?`,
anchored at the end of input: returns the pre-release and build group texts.
The pre-release group extends to the first `+` (its character class excludes
`+`), the build group to the end. -/
def parseQualLoose : List Char → Option (String × String)
  | [] => some ("", "")
  | '-' :: r =>
    let pre := String.mk (r.takeWhile (fun c => !(c = '+')))
    if validPartsLoose pre then
      match r.dropWhile (fun c => !(c = '+')) with
      | [] => some (pre, "")
      | '+' :: b =>
        let bs := String.mk b
        if validPartsLoose bs then some (pre, bs) else none
      | _ => none
    else none
  | '+' :: b =>
    let bs := String.mk b
    if validPartsLoose bs then some ("", bs) else none
  | _ => none

/-- The `partial` production of the range grammar, anchored at the end of
input: `xr(\.xr(\.xr qualifier)?)?`.  Returns the five capture groups
(unmatched groups are empty strings, as with Go's `FindStringSubmatch`). -/
def parseTripletGroups (cs : List Char) :
    Option (String × String × String × String × String) :=
  match parseXR cs with
  | none => none
  | some (g1, r1) =>
    match r1 with
    | [] => some (g1, "", "", "", "")
    | '.' :: r2 =>
      match parseXR r2 with
      | none => none
      | some (g2, r3) =>
        match r3 with
        | [] => some (g1, g2, "", "", "")
        | '.' :: r4 =>
          match parseXR r4 with
          | none => none
          | some (g3, r5) =>
            match parseQualLoose r5 with
            | none => none
            | some (g4, g5) => some (g1, g2, g3, g4, g5)
        | _ => none
    | _ => none

/-- `a b` is one of the two-character comparators `<=`, `>=`, `~>`, `~=`. -/
def isTwoCharOp (a b : Char) : Bool :=
  (a = '<' && b = '=') || (a = '>' && b = '=')
    || (a = '~' && b = '>') || (a = '~' && b = '=')

/-- `simplePattern.FindStringSubmatch`: optional comparator
`([<>=~^]|<=|>=|~>|~=)` then `partial`, anchored on both sides.  Returns the
Go submatch slice `m` (index 0 the whole match, 1 the comparator, 2-6 the
partial's groups).  Committing to the longest comparator is faithful to the
regexp's leftmost-first alternation because `partial` can never start with a
comparator character, so a shorter comparator choice can never rescue the
match. -/
def matchSimpleGroups (s : String) : Option (List String) :=
  let cs := s.toList
  let opRest : String × List Char :=
    match cs with
    | a :: b :: r =>
      if isTwoCharOp a b then (String.mk [a, b], r)
      else if isOpChar a then (String.mk [a], b :: r)
      else ("", cs)
    | a :: r => if isOpChar a then (String.mk [a], r) else ("", cs)
    | [] => ("", [])
  match parseTripletGroups opRest.2 with
  | none => none
  | some (g1, g2, g3, g4, g5) => some [s, opRest.1, g1, g2, g3, g4, g5]

/-- `hyphenPattern.FindStringSubmatch`: `partial \s+ - \s+ partial`, anchored.
Since `partial` matches no whitespace, the first partial is exactly the text
before the first whitespace character and the separator must follow there.
Returns the Go submatch slice (groups 1-5 and 6-10 the two partials). -/
def matchHyphenGroups (s : String) : Option (List String) :=
  let cs := s.toList
  let a := cs.takeWhile (fun c => !isWsChar c)
  match cs.dropWhile (fun c => !isWsChar c) with
  | [] => none
  | w :: r1 =>
    if isWsChar w then
      match (w :: r1).dropWhile isWsChar with
      | '-' :: r3 =>
        match r3 with
        | c :: _ =>
          if isWsChar c then
            match parseTripletGroups a, parseTripletGroups (r3.dropWhile isWsChar) with
            | some (g1, g2, g3, g4, g5), some (h1, h2, h3, h4, h5) =>
              some [s, g1, g2, g3, g4, g5, h1, h2, h3, h4, h5]
            | _, _ => none
          else none
        | [] => none
      | _ => none
    else none

example : opWsCollapse ">= 1.2.3".toList = ">=1.2.3".toList := by decide
example : opWsCollapse ">=v1.2.3".toList = ">=1.2.3".toList := by decide
example : orSplitList "1.2.3 || 2.x".toList = ["1.2.3".toList, "2.x".toList] := by decide
example : wsSplitList ">=1.2 <3".toList = [">=1.2".toList, "<3".toList] := by decide
example : matchSimpleGroups "<=1.2" = some ["<=1.2", "<=", "1", "2", "", "", ""] := by decide
example : matchSimpleGroups "1.2.3-rc.1+b7" =
  some ["1.2.3-rc.1+b7", "", "1", "2", "3", "rc.1", "b7"] := by decide
example : matchHyphenGroups "1.2.3 - 2.3.4" =
  some ["1.2.3 - 2.3.4", "1", "2", "3", "", "", "2", "3", "4", "", ""] := by decide

/-- Decimal value of a digit list. -/
def natOfDigits (ds : List Char) : Nat :=
  ds.foldl (fun acc c => acc * 10 + (c.toNat - 48)) 0

/-- `strconv.ParseInt(s, 10, 64)` (also `strconv.Atoi`): returns the value
and an ok flag.  On a syntax error the value is 0; on a range error the value
saturates at `MaxInt64` / `MinInt64` — both with the ok flag false. -/
def goParseInt (s : String) : Int × Bool :=
  let signAndDigits : Int × List Char :=
    match s.toList with
    | [] => (1, [])
    | c :: ds =>
      if c = '-' then (-1, ds)
      else if c = '+' then (1, ds)
      else (1, c :: ds)
  let ds := signAndDigits.2
  if ds.isEmpty || !ds.all Char.isDigit then (0, false)
  else
    let n : Nat := natOfDigits ds
    if signAndDigits.1 = 1 then
      if n ≤ 9223372036854775807 then ((n : Int), true) else (maxI64, false)
    else
      if n ≤ 9223372036854775808 then (-(n : Int), true) else (minI64, false)

/-- `xDigit(str)`: empty or wildcard text is "absent" (`ok == false`, no
error); otherwise a successful `ParseInt` yields the value and anything else
(including 64-bit overflow) the `illegal version triplet` error. -/
def xDigit (s : String) : Except String (Option Int) :=
  if s = "" || s = "x" || s = "X" || s = "*" then .ok none
  else
    let p := goParseInt s
    if p.2 then .ok (some p.1) else .error "illegal version triplet"

/-- `mungePart(part)`: an `int` when `ParseInt` succeeds, else the string. -/
def mungePart (p : String) : Segment :=
  let r := goParseInt p
  if r.2 then .i r.1 else .s p

/-- `splitParts(tag, str, stringToInt)`: empty text is the nil slice; the
text must match `vPRParts` (pre-release) or `vParts` (build); pre-release
pieces go through `mungePart`, build pieces stay strings. -/
def splitParts (tag : String) (str : String) (stringToInt : Bool) :
    Except String (Option (List Segment)) :=
  if str = "" then .ok none
  else if (if stringToInt then validPartsStrict str else validPartsLoose str) then
    .ok (some ((splitDots str.toList).map fun p =>
      if stringToInt then mungePart (String.mk p) else .s (String.mk p)))
  else .error ("Illegal characters in " ++ tag)

/-- `NewVersion3(major, minor, patch, preRelease, build)`. -/
def NewVersion3 (major minor patch : Int) (preRelease build : String) :
    Except String Version :=
  if major < 0 || minor < 0 || patch < 0 then
    .error "negative numbers not accepted in version"
  else do
    let ps ← splitParts "pre-release" preRelease true
    let bs ← splitParts "build" build false
    return ⟨major, minor, patch, ps, bs⟩

/-- `createGtEqRange(rxGroup, startInMatcher)`: absent major yields
`lowestLb`; absent minor/patch default to zero. -/
def createGtEqRange (m : List String) (k : Nat) : Except String ARange := do
  match ← xDigit (m.getD k "") with
  | none => return lowestLb
  | some major =>
    let minor := (← xDigit (m.getD (k + 1) "")).getD 0
    let patch := (← xDigit (m.getD (k + 2) "")).getD 0
    let v ← NewVersion3 major minor patch (m.getD (k + 3) "") (m.getD (k + 4) "")
    return .gtEq v

/-- `createGtRange`: absent major yields `lowestLb`; absent minor widens to
`>= (major+1).0.0`; absent patch to `>= major.(minor+1).0`; a full triplet is
a literal `>`. -/
def createGtRange (m : List String) (k : Nat) : Except String ARange := do
  match ← xDigit (m.getD k "") with
  | none => return lowestLb
  | some major =>
    match ← xDigit (m.getD (k + 1) "") with
    | none => return .gtEq ⟨wrap64 (major + 1), 0, 0, none, none⟩
    | some minor =>
      match ← xDigit (m.getD (k + 2) "") with
      | none => return .gtEq ⟨major, wrap64 (minor + 1), 0, none, none⟩
      | some patch =>
        let v ← NewVersion3 major minor patch
          (m.getD (k + 3) "") (m.getD (k + 4) "")
        return .gt v

/-- `createLtEqRange`: absent major yields `lowestUb`; absent minor widens to
`< (major+1).0.0`; absent patch to `< major.(minor+1).0`; a full triplet is a
literal `<=`. -/
def createLtEqRange (m : List String) (k : Nat) : Except String ARange := do
  match ← xDigit (m.getD k "") with
  | none => return lowestUb
  | some major =>
    match ← xDigit (m.getD (k + 1) "") with
    | none => return .lt ⟨wrap64 (major + 1), 0, 0, none, none⟩
    | some minor =>
      match ← xDigit (m.getD (k + 2) "") with
      | none => return .lt ⟨major, wrap64 (minor + 1), 0, none, none⟩
      | some patch =>
        let v ← NewVersion3 major minor patch
          (m.getD (k + 3) "") (m.getD (k + 4) "")
        return .ltEq v

/-- `createLtRange`: absent major yields `lowestUb`; absent minor/patch
default to zero; a full triplet is a literal `<`. -/
def createLtRange (m : List String) (k : Nat) : Except String ARange := do
  match ← xDigit (m.getD k "") with
  | none => return lowestUb
  | some major =>
    let minor := (← xDigit (m.getD (k + 1) "")).getD 0
    let patch := (← xDigit (m.getD (k + 2) "")).getD 0
    let v ← NewVersion3 major minor patch (m.getD (k + 3) "") (m.getD (k + 4) "")
    return .lt v

/-- `allowPatchUpdates(rxGroup, startInMatcher, tildeOrCaret)`. -/
def allowPatchUpdates (m : List String) (k : Nat) (tildeOrCaret : Bool) :
    Except String ARange := do
  match ← xDigit (m.getD k "") with
  | none => return lowestLb
  | some major =>
    match ← xDigit (m.getD (k + 1) "") with
    | none =>
      return .se (.gtEq ⟨major, 0, 0, none, none⟩)
        (.lt ⟨wrap64 (major + 1), 0, 0, none, none⟩)
    | some minor =>
      match ← xDigit (m.getD (k + 2) "") with
      | none =>
        return .se (.gtEq ⟨major, minor, 0, none, none⟩)
          (.lt ⟨major, wrap64 (minor + 1), 0, none, none⟩)
      | some patch =>
        let v ← NewVersion3 major minor patch
          (m.getD (k + 3) "") (m.getD (k + 4) "")
        if tildeOrCaret then
          return .se (.gtEq v) (.lt ⟨major, wrap64 (minor + 1), 0, none, none⟩)
        else return .eq v

/-- `allowMinorUpdates(rxGroup, major, startInMatcher)`: note that the Go code
checks only the ok flag of the minor conversion, discarding its error. -/
def allowMinorUpdates (m : List String) (major : Int) (k : Nat) :
    Except String ARange := do
  let minor : Int :=
    match xDigit (m.getD k "") with
    | .ok (some n) => n
    | _ => 0
  let patch := (← xDigit (m.getD (k + 1) "")).getD 0
  let v ← NewVersion3 major minor patch (m.getD (k + 2) "") (m.getD (k + 3) "")
  return .se (.gtEq v) (.lt ⟨wrap64 (major + 1), 0, 0, none, none⟩)

/-- `createTildeRange`. -/
def createTildeRange (m : List String) (k : Nat) : Except String ARange :=
  allowPatchUpdates m k true

/-- `createCaretRange`: major 0 behaves like tilde, otherwise minor updates
are allowed. -/
def createCaretRange (m : List String) (k : Nat) : Except String ARange := do
  match ← xDigit (m.getD k "") with
  | none => return lowestLb
  | some major =>
    if major = 0 then allowPatchUpdates m k true
    else allowMinorUpdates m major (k + 1)

/-- `createXRange`. -/
def createXRange (m : List String) (k : Nat) : Except String ARange :=
  allowPatchUpdates m k false

/-- The `switch m[1]` of `ParseVersionRange`.  (`~=` is absent from the `~`,
`~>` case and therefore falls through to the default `createXRange`.) -/
def dispatchOp (op : String) (m : List String) : Except String ARange :=
  if op = "~" || op = "~>" then createTildeRange m 2
  else if op = "^" then createCaretRange m 2
  else if op = ">" then createGtRange m 2
  else if op = ">=" then createGtEqRange m 2
  else if op = "<" then createLtRange m 2
  else if op = "<=" then createLtEqRange m 2
  else createXRange m 2

/-- Decidable equality for `Except`, so that concrete parses can be settled
by `decide`. -/
instance {e a : Type} [DecidableEq e] [DecidableEq a] : DecidableEq (Except e a) :=
  fun x y =>
    match x, y with
    | .ok v, .ok w =>
      if h : v = w then .isTrue (by rw [h])
      else .isFalse (fun he => h (Except.ok.inj he))
    | .error v, .error w =>
      if h : v = w then .isTrue (by rw [h])
      else .isFalse (fun he => h (Except.error.inj he))
    | .ok _, .error _ => .isFalse (fun he => Except.noConfusion he)
    | .error _, .ok _ => .isFalse (fun he => Except.noConfusion he)

/-- The per-alternative `for _, simple := range simpleSplit.Split(...)` loop
of `ParseVersionRange`: each term must match `simplePattern`; the first
term's bound seeds the accumulator and later terms intersect into it (a nil
intersection leaves a nil accumulator, which the next term re-seeds). -/
def parseSimpleTerms (terms : List (List Char)) : Except String (Option ARange) :=
  terms.foldlM
    (fun acc t =>
      match matchSimpleGroups (String.mk t) with
      | none => .error ("'" ++ String.mk t ++ "' is not a valid version range")
      | some m => do
        let rng ← dispatchOp (m.getD 1 "") m
        match acc with
        | none => return some rng
        | some a => return intersection a rng)
    none

/-- One `rangeStr` alternative of `ParseVersionRange`: an empty alternative
contributes `lowestLb`; a hyphen expression contributes the intersection of
the two bounds built by `createGtEqRange` at groups 1 and 6; otherwise the
whitespace-separated simple terms are intersected.  (For a hyphen expression
Go appends `intersection(e1, e2)` unconditionally; a nil there would crash
`newVersionRange`, but two greater-equal bounds always intersect.) -/
def parsePiece (piece : List Char) : Except String (Option ARange) :=
  if piece.isEmpty then .ok (some lowestLb)
  else
    match matchHyphenGroups (String.mk piece) with
    | some m => do
      let e1 ← createGtEqRange m 1
      let e2 ← createGtEqRange m 6
      match intersection e1 e2 with
      | some r => return some r
      | none => .error "nil range"
    | none => parseSimpleTerms (wsSplitList piece)

/-- `ParseVersionRange(vr)`: empty input is the distinguished "no constraint"
result (`.ok none`); otherwise collapse comparator whitespace, split the
alternatives on `||`, build each alternative's bound, and normalize. -/
def ParseVersionRange (vr : String) : Except String (Option VersionRange) :=
  if vr = "" then .ok none
  else
    let vrC := opWsCollapse vr.toList
    let pieces := orSplitList vrC
    if pieces.isEmpty then
      .error ("'" ++ String.mk vrC ++ "' is not a valid version range")
    else do
      let ranges ← pieces.foldlM
        (fun (acc : List ARange) piece => do
          match ← parsePiece piece with
          | some r => return acc ++ [r]
          | none => return acc)
        []
      return some (newVersionRange (String.mk vrC) ranges)

/-- The `vNR` production `(0|[1-9][0-9]*)` of `VersionPattern`. -/
def parseNR : List Char → Option (String × List Char)
  | '0' :: r => some ("0", r)
  | c :: r =>
    if c.isDigit then
      some (String.mk (c :: r.takeWhile Char.isDigit), r.dropWhile Char.isDigit)
    else none
  | [] => none

/-- The `vQualifier` of `VersionPattern`, anchored at the end of input: the
pre-release group must match the strict `vPRParts`, the build group the loose
`vParts`. -/
def parseQualStrict : List Char → Option (String × String)
  | [] => some ("", "")
  | '-' :: r =>
    let pre := String.mk (r.takeWhile fun c => !(c = '+'))
    if validPartsStrict pre then
      match r.dropWhile (fun c => !(c = '+')) with
      | [] => some (pre, "")
      | '+' :: b =>
        let bs := String.mk b
        if validPartsLoose bs then some (pre, bs) else none
      | _ => none
    else none
  | '+' :: b =>
    let bs := String.mk b
    if validPartsLoose bs then some ("", bs) else none
  | _ => none

/-- `VersionPattern.FindStringSubmatch`: `vNR.vNR.vNR vQualifier`, anchored;
returns the five capture groups. -/
def matchVersionGroups (s : String) :
    Option (String × String × String × String × String) :=
  match parseNR s.toList with
  | none => none
  | some (g1, r1) =>
    match r1 with
    | '.' :: r2 =>
      match parseNR r2 with
      | none => none
      | some (g2, r3) =>
        match r3 with
        | '.' :: r4 =>
          match parseNR r4 with
          | none => none
          | some (g3, r5) =>
            match parseQualStrict r5 with
            | none => none
            | some (g4, g5) => some (g1, g2, g3, g4, g5)
        | _ => none
    | _ => none

/-- `strconv.Atoi` with its error discarded, exactly as the
`major, _ := strconv.Atoi(group[1])` lines of `ParseVersion` do: on 64-bit
overflow this silently yields the saturated `MaxInt64`. -/
def atoi (s : String) : Int := (goParseInt s).1

/-- `ParseVersion(str)`. -/
def ParseVersion (str : String) : Except String Version :=
  match matchVersionGroups str with
  | some (g1, g2, g3, g4, g5) =>
    NewVersion3 (atoi g1) (atoi g2) (atoi g3) g4 g5
  | none =>
    .error ("the string '" ++ str
      ++ "' does not represent a valid semantic version")

example : ParseVersion "1.0.0" = .ok ⟨1, 0, 0, none, none⟩ := by decide
example : ParseVersion "1.2.3-rc1" = .ok ⟨1, 2, 3, some [.s "rc1"], none⟩ := by decide
example : ParseVersionRange "1.x" =
  .ok (some ⟨"1.x", [.se (.gtEq ⟨1, 0, 0, none, none⟩) (.lt ⟨2, 0, 0, none, none⟩)]⟩) := by decide
example : VersionRange.NormalizedString
    ⟨"1.x", [.se (.gtEq ⟨1, 0, 0, none, none⟩) (.lt ⟨2, 0, 0, none, none⟩)]⟩
  = ">=1.0.0 <2.0.0" := by decide
example : ParseVersionRange "*" = .ok (some ⟨"*", [lowestLb]⟩) := by decide
example : ParseVersionRange ">=1.2.3" = .ok (some ⟨">=1.2.3", [.gtEq ⟨1, 2, 3, none, none⟩]⟩) := by decide

/-- C1: the hyphen expression `"1.2.3 - 2.3.4"` does NOT parse to the
two-sided constraint `>=1.2.3 <=2.3.4`: `ParseVersionRange` builds BOTH
endpoints with `createGtEqRange` (groups 1 and 6), so the intersection of
`>=1.2.3` and `>=2.3.4` collapses to the single lower bound `>=2.3.4`.
Consequently the in-between version 1.5.0 is rejected, 3.0.0 (above the
claimed inclusive end) is accepted, and the resulting bound's start is the
HIGH literal while its end is the `Max` sentinel. -/
theorem hyphen_upper_bound_code_bug :
    ParseVersionRange "1.2.3 - 2.3.4" =
      .ok (some ⟨"1.2.3 - 2.3.4", [.gtEq ⟨2, 3, 4, none, none⟩]⟩)
    ∧ VersionRange.Includes ⟨"1.2.3 - 2.3.4", [.gtEq ⟨2, 3, 4, none, none⟩]⟩
        ⟨1, 5, 0, none, none⟩ = false
    ∧ VersionRange.Includes ⟨"1.2.3 - 2.3.4", [.gtEq ⟨2, 3, 4, none, none⟩]⟩
        ⟨3, 0, 0, none, none⟩ = true
    ∧ ARange.start (.gtEq ⟨2, 3, 4, none, none⟩) = ⟨2, 3, 4, none, none⟩
    ∧ ARange.endV (.gtEq ⟨2, 3, 4, none, none⟩) = Max
    ∧ ARange.includes (.se (.gtEq ⟨1, 2, 3, none, none⟩) (.ltEq ⟨2, 3, 4, none, none⟩))
        ⟨1, 5, 0, none, none⟩ = true := by
  refine ⟨by decide, by decide, by decide, by decide, by decide, by decide⟩

/-- C2: `minPrereleases` is a nil slice (declared, never initialized), so
`Min` is the plain stable 0.0.0: its pre-release is absent rather than empty,
it sorts ABOVE the pre-releases of 0.0.0, the range parsed from `"*"`
(whose alternative is `>=Min`) rejects `1.2.3-rc1` (contradicting the
package's own `ExampleMatchAll` test), and its normalized string is
`">=0.0.0"`, not `">=0.0.0-"`. -/
theorem min_prerelease_code_bug :
    Min.preRelease = none
    ∧ Min.IsStable = true
    ∧ 0 < Version.CompareTo Min ⟨0, 0, 0, some [.s "alpha"], none⟩
    ∧ ParseVersionRange "*" = .ok (some ⟨"*", [.gtEq Min]⟩)
    ∧ VersionRange.Includes ⟨"*", [.gtEq Min]⟩ Min = true
    ∧ ParseVersion "1.2.3-rc1" = .ok ⟨1, 2, 3, some [.s "rc1"], none⟩
    ∧ VersionRange.Includes ⟨"*", [.gtEq Min]⟩ ⟨1, 2, 3, some [.s "rc1"], none⟩ = false
    ∧ VersionRange.NormalizedString ⟨"*", [.gtEq Min]⟩ = ">=0.0.0" := by
  refine ⟨by decide, by decide, by decide, by decide, by decide, by decide,
    by decide, by decide⟩

/-- C4 counterexample: `"<=1.2"` is NOT evaluated as `<=` against the
zero-filled 1.2.0 — `createLtEqRange` widens the absent patch to the strict
bound `<1.3.0`, so 1.2.5 (strictly above 1.2.0) is included. -/
theorem ltEq_partial_widens_counterexample :
    ParseVersionRange "<=1.2" = .ok (some ⟨"<=1.2", [.lt ⟨1, 3, 0, none, none⟩]⟩)
    ∧ VersionRange.Includes ⟨"<=1.2", [.lt ⟨1, 3, 0, none, none⟩]⟩
        ⟨1, 2, 5, none, none⟩ = true
    ∧ 0 < Version.CompareTo ⟨1, 2, 5, none, none⟩ ⟨1, 2, 0, none, none⟩ := by
  refine ⟨by decide, by decide, by decide⟩

/-- C9 counterexample: a version literal whose major position overflows
64-bit does NOT fail to parse: `ParseVersion` discards `strconv.Atoi`'s
range error, so the component silently saturates at `MaxInt64`. -/
theorem overflow_version_literal_counterexample :
    ParseVersion "9223372036854775808.0.0" = .ok ⟨maxI64, 0, 0, none, none⟩
    ∧ (goParseInt "9223372036854775808").2 = false
    ∧ atoi "9223372036854775808" = maxI64 := by
  refine ⟨by decide, by decide, by decide⟩

/-- The comparator endpoints of a bound, following the specification's words:
each simple comparator contributes its own endpoint version, an interval
contributes those of its two comparators. -/
def endpointVersions : ARange → List Version
  | .eq v => [v]
  | .gt v => [v]
  | .gtEq v => [v]
  | .lt v => [v]
  | .ltEq v => [v]
  | .se a b => endpointVersions a ++ endpointVersions b

theorem testPrerelease_iff (ar : ARange) (v : Version) :
    ar.testPrerelease v = true ↔
      ∃ e ∈ endpointVersions ar, e.IsStable = false ∧ e.tripletEquals v = true := by
  induction ar with
  | eq w =>
    simp [ARange.testPrerelease, endpointVersions, Version.TripletEquals,
      Bool.and_eq_true]
  | gt w =>
    simp [ARange.testPrerelease, endpointVersions, Version.TripletEquals,
      Bool.and_eq_true]
  | gtEq w =>
    simp [ARange.testPrerelease, endpointVersions, Version.TripletEquals,
      Bool.and_eq_true]
  | lt w =>
    simp [ARange.testPrerelease, endpointVersions, Version.TripletEquals,
      Bool.and_eq_true]
  | ltEq w =>
    simp [ARange.testPrerelease, endpointVersions, Version.TripletEquals,
      Bool.and_eq_true]
  | se a b iha ihb =>
    simp only [ARange.testPrerelease, endpointVersions, Bool.or_eq_true, iha,
      ihb, List.mem_append]
    constructor
    · rintro (⟨e, he, hp⟩ | ⟨e, he, hp⟩)
      · exact ⟨e, Or.inl he, hp⟩
      · exact ⟨e, Or.inr he, hp⟩
    · rintro ⟨e, he | he, hp⟩
      · exact Or.inl ⟨e, he, hp⟩
      · exact Or.inr ⟨e, he, hp⟩

/-- C5: `Includes` holds exactly when some alternative's bound-level
`includes` holds and the version is stable or visible through that
alternative, where an unstable version is visible exactly when some
comparator endpoint of the bound shares its major.minor.patch triplet and is
itself unstable. -/
theorem includes_iff_spec (r : VersionRange) (v : Version) :
    r.Includes v = true ↔
      ∃ ar ∈ r.ranges, ar.includes v = true ∧
        (v.IsStable = true ∨
          ∃ e ∈ endpointVersions ar, e.IsStable = false ∧ e.tripletEquals v = true) := by
  simp only [VersionRange.Includes, List.any_eq_true, Bool.and_eq_true,
    Bool.or_eq_true, testPrerelease_iff]

/-- Closed instance of `includes_iff_spec` at the `MatchAll` constant and the
unstable version `0.0.0-alpha` (whose visibility endpoint is `Min` — which,
per C2, is stable, so the right-hand side fails just as `Includes` does). -/
theorem includes_iff_spec_witness :
    ¬ ∃ ar ∈ MatchAll.ranges, ar.includes ⟨0, 0, 0, some [.s "alpha"], none⟩ = true ∧
        ((⟨0, 0, 0, some [.s "alpha"], none⟩ : Version).IsStable = true ∨
          ∃ e ∈ endpointVersions ar, e.IsStable = false ∧
            e.tripletEquals ⟨0, 0, 0, some [.s "alpha"], none⟩ = true) := by
  intro hc
  have h := (includes_iff_spec MatchAll ⟨0, 0, 0, some [.s "alpha"], none⟩).mpr hc
  exact absurd h (by decide)

/-- C8: `IsAsRestrictiveAs` is the ∀∃ combination of bound intersection and
`asRestrictedAs`, and on the concrete ranges `=1.2.3` and `^1.0.0` it holds
one way and fails the other. -/
theorem isAsRestrictiveAs_spec :
    (∀ r o : VersionRange, r.IsAsRestrictiveAs o = true ↔
      ∀ ar ∈ r.ranges, ∃ ao ∈ o.ranges,
        (intersection ar ao).isSome = true ∧ asRestrictedAs ar ao = true)
    ∧ ParseVersionRange "=1.2.3" =
        .ok (some ⟨"=1.2.3", [.eq ⟨1, 2, 3, none, none⟩]⟩)
    ∧ ParseVersionRange "^1.0.0" =
        .ok (some ⟨"^1.0.0",
          [.se (.gtEq ⟨1, 0, 0, none, none⟩) (.lt ⟨2, 0, 0, none, none⟩)]⟩)
    ∧ VersionRange.IsAsRestrictiveAs
        ⟨"=1.2.3", [.eq ⟨1, 2, 3, none, none⟩]⟩
        ⟨"^1.0.0",
          [.se (.gtEq ⟨1, 0, 0, none, none⟩) (.lt ⟨2, 0, 0, none, none⟩)]⟩ = true
    ∧ VersionRange.IsAsRestrictiveAs
        ⟨"^1.0.0",
          [.se (.gtEq ⟨1, 0, 0, none, none⟩) (.lt ⟨2, 0, 0, none, none⟩)]⟩
        ⟨"=1.2.3", [.eq ⟨1, 2, 3, none, none⟩]⟩ = false := by
  refine ⟨?_, by decide, by decide, by decide, by decide⟩
  intro r o
  simp only [VersionRange.IsAsRestrictiveAs, List.all_eq_true,
    List.any_eq_true, Bool.and_eq_true]

/-- Closed instance of `isAsRestrictiveAs_spec`: the ∀∃ characterization
evaluated at the two parsed ranges of the claim. -/
theorem isAsRestrictiveAs_spec_witness :
    ∀ ar ∈ (⟨"=1.2.3", [ARange.eq ⟨1, 2, 3, none, none⟩]⟩ : VersionRange).ranges,
      ∃ ao ∈ (⟨"^1.0.0",
          [ARange.se (.gtEq ⟨1, 0, 0, none, none⟩) (.lt ⟨2, 0, 0, none, none⟩)]⟩ :
            VersionRange).ranges,
        (intersection ar ao).isSome = true ∧ asRestrictedAs ar ao = true :=
  (isAsRestrictiveAs_spec.1 _ _).mp (by decide)

theorem eqRangesList_iff (l1 l2 : List ARange) :
    eqRangesList l1 l2 = true ↔
      List.Forall₂ (fun x y => x.equals y = true) l1 l2 := by
  induction l1 generalizing l2 with
  | nil =>
    cases l2 <;> simp [eqRangesList]
  | cons a as ih =>
    cases l2 with
    | nil => simp [eqRangesList]
    | cons b bs =>
      simp [eqRangesList, Bool.and_eq_true, ih, List.forall₂_cons]

/-- C10: `VersionRange.Equals` is structural — it holds exactly when the
alternative lists have the same length, in the same order, with each
corresponding pair the same concrete bound variant carrying `Version.Equals`
endpoints (that is precisely `ARange.equals`).  The ranges parsed from
`"1.2.3 || 2.0.0"` and `"2.0.0 || 1.2.3"` admit exactly the same versions but
are reported unequal, their alternatives being in a different list order. -/
theorem equals_structural_spec :
    (∀ r o : VersionRange, r.Equals o = true ↔
      List.Forall₂ (fun x y => x.equals y = true) r.ranges o.ranges)
    ∧ ParseVersionRange "1.2.3 || 2.0.0" =
        .ok (some ⟨"1.2.3 || 2.0.0",
          [.eq ⟨1, 2, 3, none, none⟩, .eq ⟨2, 0, 0, none, none⟩]⟩)
    ∧ ParseVersionRange "2.0.0 || 1.2.3" =
        .ok (some ⟨"2.0.0 || 1.2.3",
          [.eq ⟨2, 0, 0, none, none⟩, .eq ⟨1, 2, 3, none, none⟩]⟩)
    ∧ (∀ v : Version,
        VersionRange.Includes ⟨"1.2.3 || 2.0.0",
          [.eq ⟨1, 2, 3, none, none⟩, .eq ⟨2, 0, 0, none, none⟩]⟩ v =
        VersionRange.Includes ⟨"2.0.0 || 1.2.3",
          [.eq ⟨2, 0, 0, none, none⟩, .eq ⟨1, 2, 3, none, none⟩]⟩ v)
    ∧ VersionRange.Equals
        ⟨"1.2.3 || 2.0.0", [.eq ⟨1, 2, 3, none, none⟩, .eq ⟨2, 0, 0, none, none⟩]⟩
        ⟨"2.0.0 || 1.2.3", [.eq ⟨2, 0, 0, none, none⟩, .eq ⟨1, 2, 3, none, none⟩]⟩
      = false := by
  refine ⟨fun r o => eqRangesList_iff r.ranges o.ranges, by decide, by decide,
    ?_, by decide⟩
  intro v
  simp only [VersionRange.Includes, List.any_cons, List.any_nil,
    Bool.or_false]
  exact Bool.or_comm _ _

/-- Closed instance of `equals_structural_spec`: the structural
characterization refuting equality of the two order-swapped ranges. -/
theorem equals_structural_spec_witness :
    ¬ List.Forall₂ (fun x y => x.equals y = true)
      [ARange.eq ⟨1, 2, 3, none, none⟩, ARange.eq ⟨2, 0, 0, none, none⟩]
      [ARange.eq ⟨2, 0, 0, none, none⟩, ARange.eq ⟨1, 2, 3, none, none⟩] := by
  intro hc
  have h := (equals_structural_spec.1
    ⟨"1.2.3 || 2.0.0", [.eq ⟨1, 2, 3, none, none⟩, .eq ⟨2, 0, 0, none, none⟩]⟩
    ⟨"2.0.0 || 1.2.3", [.eq ⟨2, 0, 0, none, none⟩, .eq ⟨1, 2, 3, none, none⟩]⟩).mpr hc
  exact absurd h (by decide)

/-- C6: the claim says two bounds touching at a boundary that either side
excludes have no intersection.  But `ltRange` never overrides
`simpleRange`'s `isExcludeEnd`, so `isExcludeEnd()` is `false` for every
bound and the exclusion test on the end side never fires: `>=1.2.3` and
`<1.2.3` touch at 1.2.3 — a version the `<` side genuinely excludes (its
`includes(1.2.3)` is false, so per the `VersionRange` interface
documentation its end is "not included") — yet `intersection` returns
`Exact(1.2.3)`.  End to end, `">=1.2.3 <1.2.3"` parses to exactly `1.2.3`
and `Includes(1.2.3)` answers true, although its own `<1.2.3` term rejects
that version. -/
theorem intersection_excluded_touch_code_bug :
    ARange.isExcludeEnd (.lt ⟨1, 2, 3, none, none⟩) = false
    ∧ ARange.includes (.lt ⟨1, 2, 3, none, none⟩) ⟨1, 2, 3, none, none⟩ = false
    ∧ ARange.endV (.lt ⟨1, 2, 3, none, none⟩) = ⟨1, 2, 3, none, none⟩
    ∧ ARange.start (.gtEq ⟨1, 2, 3, none, none⟩) = ⟨1, 2, 3, none, none⟩
    ∧ intersection (.gtEq ⟨1, 2, 3, none, none⟩) (.lt ⟨1, 2, 3, none, none⟩) =
        some (.eq ⟨1, 2, 3, none, none⟩)
    ∧ ParseVersionRange ">=1.2.3 <1.2.3" =
        .ok (some ⟨">=1.2.3 <1.2.3", [.eq ⟨1, 2, 3, none, none⟩]⟩)
    ∧ VersionRange.Includes ⟨">=1.2.3 <1.2.3", [.eq ⟨1, 2, 3, none, none⟩]⟩
        ⟨1, 2, 3, none, none⟩ = true := by
  refine ⟨by decide, by decide, by decide, by decide, by decide, by decide,
    by decide⟩

/-- C7 counterexample: none of the claim's three adjacency readings matches
the program.  `<1.2.3` genuinely excludes its end 1.2.3 (its
`includes(1.2.3)` is false) while `>=1.2.3` includes that point as its
start, so the claim's "one's exclusive end equals the other's inclusive
start" applies — yet `union` does not merge them (no bound ever reports an
excluded end, so that branch is dead); "both open at the same point from
opposite sides" (`<1.2.3` with `>1.2.3`) is not merged either; and
conversely `<1.2.3` with `>=1.2.4` — where the claim's "inclusive end"
next-patch reading does NOT apply, the end being semantically exclusive —
IS merged via the next-patch branch. -/
theorem union_adjacency_counterexample :
    ARange.includes (.lt ⟨1, 2, 3, none, none⟩) ⟨1, 2, 3, none, none⟩ = false
    ∧ ARange.endV (.lt ⟨1, 2, 3, none, none⟩) = ⟨1, 2, 3, none, none⟩
    ∧ ARange.includes (.gtEq ⟨1, 2, 3, none, none⟩) ⟨1, 2, 3, none, none⟩ = true
    ∧ ARange.start (.gtEq ⟨1, 2, 3, none, none⟩) = ⟨1, 2, 3, none, none⟩
    ∧ (ARange.includes (.lt ⟨1, 2, 3, none, none⟩)
          (ARange.start (.gtEq ⟨1, 2, 3, none, none⟩))
        || ARange.includes (.gtEq ⟨1, 2, 3, none, none⟩)
          (ARange.start (.lt ⟨1, 2, 3, none, none⟩))) = false
    ∧ union (.lt ⟨1, 2, 3, none, none⟩) (.gtEq ⟨1, 2, 3, none, none⟩) = none
    ∧ union (.lt ⟨1, 2, 3, none, none⟩) (.gt ⟨1, 2, 3, none, none⟩) = none
    ∧ union (.lt ⟨1, 2, 3, none, none⟩) (.gtEq ⟨1, 2, 4, none, none⟩) =
        some (.se (.gtEq Min) (.ltEq Max)) := by
  refine ⟨by decide, by decide, by decide, by decide, by decide, by decide,
    by decide, by decide⟩

/-- C7 amended: on non-overlapping bounds (neither `includes` the other's
start), `union` merges exactly when one of the code's five adjacency
conditions holds ON THE PROGRAM'S OWN EXCLUSION FLAGS: both bounds FLAG an
excluded start at an equal point; one flags an excluded end equal to the
other's non-excluded start (either way around) — conditions that are dead
in this program, since `isExcludeEnd()` is false for every bound; or one's
end (never flagged excluded) has its next patch equal to the other's
non-excluded start (either way around).  In particular `<1.2.3` merges with
`>=1.2.4` through the next-patch condition but not with `>=1.2.3` or
`>1.2.3`. -/
theorem union_adjacency_amended (a b : ARange)
    (h : (a.includes b.start || b.includes a.start) = false) :
    (union a b).isSome = true ↔
      (a.isExcludeStart = true ∧ b.isExcludeStart = true
        ∧ a.start.CompareTo b.start = 0)
      ∨ (a.isExcludeEnd = true ∧ b.isExcludeStart = false
        ∧ a.endV.CompareTo b.start = 0)
      ∨ (b.isExcludeEnd = true ∧ a.isExcludeStart = false
        ∧ b.endV.CompareTo a.start = 0)
      ∨ (a.isExcludeEnd = false ∧ b.isExcludeStart = false
        ∧ a.endV.NextPatch.CompareTo b.start = 0)
      ∨ (b.isExcludeEnd = false ∧ a.isExcludeStart = false
        ∧ b.endV.NextPatch.CompareTo a.start = 0) := by
  rw [union]
  rw [h]
  simp only [Bool.false_eq_true, if_false]
  split_ifs with h1 h2 h3 h4 h5 <;>
    simp_all [Bool.and_eq_true, beq_iff_eq, Bool.not_eq_true]

/-- Closed instance of `union_adjacency_amended`: `<1.2.3` and `>=1.2.4`
are non-overlapping and adjacent through the next-patch condition, so their
union merges. -/
theorem union_adjacency_amended_witness :
    (union (.lt ⟨1, 2, 3, none, none⟩) (.gtEq ⟨1, 2, 4, none, none⟩)).isSome = true ↔
      ((ARange.lt ⟨1, 2, 3, none, none⟩).isExcludeStart = true
        ∧ (ARange.gtEq ⟨1, 2, 4, none, none⟩).isExcludeStart = true
        ∧ (ARange.lt ⟨1, 2, 3, none, none⟩).start.CompareTo
            (ARange.gtEq ⟨1, 2, 4, none, none⟩).start = 0)
      ∨ ((ARange.lt ⟨1, 2, 3, none, none⟩).isExcludeEnd = true
        ∧ (ARange.gtEq ⟨1, 2, 4, none, none⟩).isExcludeStart = false
        ∧ (ARange.lt ⟨1, 2, 3, none, none⟩).endV.CompareTo
            (ARange.gtEq ⟨1, 2, 4, none, none⟩).start = 0)
      ∨ ((ARange.gtEq ⟨1, 2, 4, none, none⟩).isExcludeEnd = true
        ∧ (ARange.lt ⟨1, 2, 3, none, none⟩).isExcludeStart = false
        ∧ (ARange.gtEq ⟨1, 2, 4, none, none⟩).endV.CompareTo
            (ARange.lt ⟨1, 2, 3, none, none⟩).start = 0)
      ∨ ((ARange.lt ⟨1, 2, 3, none, none⟩).isExcludeEnd = false
        ∧ (ARange.gtEq ⟨1, 2, 4, none, none⟩).isExcludeStart = false
        ∧ (ARange.lt ⟨1, 2, 3, none, none⟩).endV.NextPatch.CompareTo
            (ARange.gtEq ⟨1, 2, 4, none, none⟩).start = 0)
      ∨ ((ARange.gtEq ⟨1, 2, 4, none, none⟩).isExcludeEnd = false
        ∧ (ARange.lt ⟨1, 2, 3, none, none⟩).isExcludeStart = false
        ∧ (ARange.gtEq ⟨1, 2, 4, none, none⟩).endV.NextPatch.CompareTo
            (ARange.lt ⟨1, 2, 3, none, none⟩).start = 0) :=
  union_adjacency_amended _ _ (by decide)

/-- C3 counterexample: `">= 1.2.3"` is accepted by `ParseVersionRange`, but
the parser stores the text only after collapsing the comparator-adjacent
whitespace, so `String()` returns `">=1.2.3"`, not the original input. -/
theorem roundtrip_counterexample :
    ParseVersionRange ">= 1.2.3" =
      .ok (some ⟨">=1.2.3", [.gtEq ⟨1, 2, 3, none, none⟩]⟩)
    ∧ VersionRange.render ⟨">=1.2.3", [.gtEq ⟨1, 2, 3, none, none⟩]⟩ = ">=1.2.3"
    ∧ (">=1.2.3" : String) ≠ ">= 1.2.3" := by
  refine ⟨by decide, by decide, by decide⟩

theorem opWsCollapse_ne_nil (c : Char) (rest : List Char) :
    opWsCollapse (c :: rest) ≠ [] := by
  rw [opWsCollapse.eq_def]
  (repeat' split) <;> simp_all

theorem except_bind_ok {e a b : Type} (x : Except e a) (f : a → Except e b)
    (y : b) (h : (x >>= f) = .ok y) : ∃ v, x = .ok v ∧ f v = .ok y := by
  cases x with
  | error err => simp [Bind.bind, Except.bind] at h
  | ok v => exact ⟨v, rfl, by simpa [Bind.bind, Except.bind] using h⟩

/-- C3 amended: for every accepted non-empty input, `String()` returns the
input with each comparator-adjacent whitespace run (or `v` literal)
collapsed away — except that an input all of whose alternatives are
contradictory parses to the shared `MatchNone` constant, whose `String()` is
its own original text `"<0.0.0"`. -/
theorem roundtrip_amended (s : String) (r : VersionRange)
    (h : ParseVersionRange s = .ok (some r)) :
    r.render = String.mk (opWsCollapse s.toList) ∨ r = MatchNone := by
  by_cases hs : s = ""
  · rw [ParseVersionRange, if_pos hs] at h
    exact absurd h (by simp)
  · rw [ParseVersionRange, if_neg hs] at h
    by_cases hp : (orSplitList (opWsCollapse s.toList)).isEmpty
    · rw [if_pos hp] at h
      exact absurd h (by simp)
    · rw [if_neg hp] at h
      obtain ⟨ranges, hX, hres⟩ := except_bind_ok _ _ _ h
      have hr : newVersionRange (String.mk (opWsCollapse s.toList)) ranges = r := by
        simpa [Pure.pure, Except.pure] using hres
      by_cases hm : mergeLoop ranges.length ranges = []
      · right
        rw [← hr, newVersionRange]
        simp [hm]
      · left
        have hne : String.mk (opWsCollapse s.data) ≠ "" := by
          cases hsl : s.data with
          | nil =>
            exact absurd (String.ext (by rw [hsl])) hs
          | cons c rest =>
            intro he
            exact opWsCollapse_ne_nil c rest
              (by simpa using congrArg String.data he)
        rw [← hr, newVersionRange]
        simp only [String.toList] at hm ⊢
        simp [hm, VersionRange.render, hne]

/-- Closed instance of `roundtrip_amended` at the accepted input
`">= 1.2.3"`. -/
theorem roundtrip_amended_witness :
    VersionRange.render ⟨">=1.2.3", [.gtEq ⟨1, 2, 3, none, none⟩]⟩ =
        String.mk (opWsCollapse ">= 1.2.3".toList)
      ∨ (⟨">=1.2.3", [.gtEq ⟨1, 2, 3, none, none⟩]⟩ : VersionRange) = MatchNone :=
  roundtrip_amended ">= 1.2.3" _ (by decide)

theorem except_ok_bind {e a b : Type} (v : a) (f : a → Except e b) :
    (Except.ok (ε := e) v >>= f) = f v := rfl

theorem except_pure_eq {e a : Type} (v : a) :
    (pure v : Except e a) = Except.ok v := rfl

/-- C4 amended: for `>`, `>=`, `<`, `<=` on a partial version, the code
widens `>` AND `<=` (not `<`) to the next whole component, while `>=` and `<`
fill the unspecified trailing parts with zero; a fully specified triplet is
used literally by all four.  The groups slice is as produced by
`simplePattern` with the comparator at index 1 and the version groups at
indices 2-6. -/
theorem partial_comparators_amended (s1 s2 s3 p4 p5 : String) (a : Int)
    (ha : xDigit s1 = .ok (some a)) :
    (xDigit s2 = .ok none → xDigit s3 = .ok none →
      createGtRange ["", "", s1, s2, s3, p4, p5] 2 =
        .ok (.gtEq ⟨wrap64 (a + 1), 0, 0, none, none⟩)
      ∧ createLtEqRange ["", "", s1, s2, s3, p4, p5] 2 =
        .ok (.lt ⟨wrap64 (a + 1), 0, 0, none, none⟩)
      ∧ ∀ w, NewVersion3 a 0 0 p4 p5 = .ok w →
          createGtEqRange ["", "", s1, s2, s3, p4, p5] 2 = .ok (.gtEq w)
          ∧ createLtRange ["", "", s1, s2, s3, p4, p5] 2 = .ok (.lt w))
    ∧ (∀ b : Int, xDigit s2 = .ok (some b) → xDigit s3 = .ok none →
      createGtRange ["", "", s1, s2, s3, p4, p5] 2 =
        .ok (.gtEq ⟨a, wrap64 (b + 1), 0, none, none⟩)
      ∧ createLtEqRange ["", "", s1, s2, s3, p4, p5] 2 =
        .ok (.lt ⟨a, wrap64 (b + 1), 0, none, none⟩)
      ∧ ∀ w, NewVersion3 a b 0 p4 p5 = .ok w →
          createGtEqRange ["", "", s1, s2, s3, p4, p5] 2 = .ok (.gtEq w)
          ∧ createLtRange ["", "", s1, s2, s3, p4, p5] 2 = .ok (.lt w))
    ∧ (∀ (b c : Int) (w : Version),
      xDigit s2 = .ok (some b) → xDigit s3 = .ok (some c) →
      NewVersion3 a b c p4 p5 = .ok w →
      createGtRange ["", "", s1, s2, s3, p4, p5] 2 = .ok (.gt w)
      ∧ createLtEqRange ["", "", s1, s2, s3, p4, p5] 2 = .ok (.ltEq w)
      ∧ createGtEqRange ["", "", s1, s2, s3, p4, p5] 2 = .ok (.gtEq w)
      ∧ createLtRange ["", "", s1, s2, s3, p4, p5] 2 = .ok (.lt w)) := by
  refine ⟨fun h2 h3 => ⟨?_, ?_, fun w hw => ⟨?_, ?_⟩⟩,
    fun b h2 h3 => ⟨?_, ?_, fun w hw => ⟨?_, ?_⟩⟩,
    fun b c w h2 h3 hw => ⟨?_, ?_, ?_, ?_⟩⟩ <;>
  simp [createGtRange, createLtEqRange, createGtEqRange, createLtRange,
    List.getD, ha, h2, h3, except_ok_bind, except_pure_eq, *]

/-- Closed instance of `partial_comparators_amended` at the partial `"1.2"`
(minor present, patch absent): `>` and `<=` widen to 1.3.0, `>=` and `<`
zero-fill to 1.2.0. -/
theorem partial_comparators_amended_witness :
    createGtRange ["", "", "1", "2", "", "", ""] 2 =
      .ok (.gtEq ⟨1, wrap64 (2 + 1), 0, none, none⟩)
    ∧ createLtEqRange ["", "", "1", "2", "", "", ""] 2 =
      .ok (.lt ⟨1, wrap64 (2 + 1), 0, none, none⟩)
    ∧ ∀ w, NewVersion3 1 2 0 "" "" = .ok w →
        createGtEqRange ["", "", "1", "2", "", "", ""] 2 = .ok (.gtEq w)
        ∧ createLtRange ["", "", "1", "2", "", "", ""] 2 = .ok (.lt w) :=
  (partial_comparators_amended "1" "2" "" "" "" 1 (by decide)).2.1 2
    (by decide) (by decide)

/-- C9 amended: a major/minor/patch position overflowing 64 bits makes RANGE
parsing fail with the `illegal version triplet` syntax error (`xDigit` checks
`ParseInt`'s error), but VERSION-literal parsing does not fail: `ParseVersion`
ignores `Atoi`'s range error and the position saturates at `MaxInt64`. -/
theorem overflow_amended (cs : List Char) (hne : cs ≠ [])
    (hd : cs.all Char.isDigit = true)
    (hbig : 9223372036854775807 < natOfDigits cs) :
    xDigit (String.mk cs) = .error "illegal version triplet"
    ∧ ParseVersionRange ">=9223372036854775808" = .error "illegal version triplet"
    ∧ ParseVersion "9223372036854775808.0.0" = .ok ⟨maxI64, 0, 0, none, none⟩ := by
  refine ⟨?_, by decide, by decide⟩
  obtain ⟨c, rest, rfl⟩ := List.exists_cons_of_ne_nil hne
  simp only [List.all_cons, Bool.and_eq_true] at hd
  obtain ⟨hc, hrest⟩ := hd
  have hcempty : ¬(String.mk (c :: rest) = "") := by
    intro h
    have h2 := congrArg String.data h
    simp at h2
  have hcx : ¬(String.mk (c :: rest) = "x") := by
    intro h
    have h2 := congrArg String.data h
    simp at h2
    rw [h2.1] at hc
    exact absurd hc (by decide)
  have hcX : ¬(String.mk (c :: rest) = "X") := by
    intro h
    have h2 := congrArg String.data h
    simp at h2
    rw [h2.1] at hc
    exact absurd hc (by decide)
  have hcs : ¬(String.mk (c :: rest) = "*") := by
    intro h
    have h2 := congrArg String.data h
    simp at h2
    rw [h2.1] at hc
    exact absurd hc (by decide)
  have hgp : goParseInt (String.mk (c :: rest)) = (maxI64, false) := by
    have hcm : ¬(c = '-') := fun h => by
      rw [h] at hc; exact absurd hc (by decide)
    have hcp : ¬(c = '+') := fun h => by
      rw [h] at hc; exact absurd hc (by decide)
    simp only [goParseInt, String.toList]
    rw [if_neg hcm, if_neg hcp]
    have hall : (c :: rest).all Char.isDigit = true := by
      simp [List.all_cons, hc, hrest]
    simp only [hall]
    simp only [List.isEmpty_cons, Bool.not_true, Bool.false_or,
      Bool.or_false, Bool.false_eq_true, if_false]
    rw [if_neg (by omega : ¬natOfDigits (c :: rest) ≤ 9223372036854775807)]
    simp
  simp only [xDigit, hgp]
  simp [hcempty, hcx, hcX, hcs]

/-- Closed instance of `overflow_amended` at the 19-digit numeral
9223372036854775808 = 2^63. -/
theorem overflow_amended_witness :
    xDigit (String.mk "9223372036854775808".toList) =
      .error "illegal version triplet"
    ∧ ParseVersionRange ">=9223372036854775808" =
      .error "illegal version triplet"
    ∧ ParseVersion "9223372036854775808.0.0" =
      .ok ⟨maxI64, 0, 0, none, none⟩ :=
  overflow_amended "9223372036854775808".toList (by decide) (by decide)
    (by decide)

example : opWsCollapse "> v1.2.3".toList = ">v1.2.3".toList := by decide
example : opWsCollapse ">v1.2.3".toList = ">1.2.3".toList := by decide
example : wsSplitList " a ".toList = [[], "a".toList, []] := by decide
example : orSplitList "a|||b".toList = ["a".toList, "|b".toList] := by decide
example : ParseVersionRange "~1.2.3" =
  .ok (some ⟨"~1.2.3",
    [.se (.gtEq ⟨1, 2, 3, none, none⟩) (.lt ⟨1, 3, 0, none, none⟩)]⟩) := by decide
example : ParseVersionRange "^0.2.3" =
  .ok (some ⟨"^0.2.3",
    [.se (.gtEq ⟨0, 2, 3, none, none⟩) (.lt ⟨0, 3, 0, none, none⟩)]⟩) := by decide
example : ParseVersionRange "~=1.2.3" =
  .ok (some ⟨"~=1.2.3", [.eq ⟨1, 2, 3, none, none⟩]⟩) := by decide
example : ParseVersionRange ">2.0.0 <1.0.0" = .ok (some MatchNone) := by decide
example : ParseVersionRange "1.2.3-alpha - 2.0.0" =
  .ok (some ⟨"1.2.3-alpha - 2.0.0", [.gtEq ⟨2, 0, 0, none, none⟩]⟩) := by decide
example : intersection (.gtEq ⟨1, 0, 0, none, none⟩) (.ltEq ⟨1, 0, 0, none, none⟩) =
  some (.eq ⟨1, 0, 0, none, none⟩) := by decide
example : intersection (.gt ⟨1, 0, 0, none, none⟩) (.ltEq ⟨1, 0, 0, none, none⟩) =
  none := by decide
example : intersection (.gtEq ⟨1, 0, 0, none, none⟩) (.lt ⟨2, 0, 0, none, none⟩) =
  some (.se (.gtEq ⟨1, 0, 0, none, none⟩) (.lt ⟨2, 0, 0, none, none⟩)) := by decide
example : union (.lt ⟨1, 2, 3, none, none⟩) (.gtEq ⟨1, 2, 3, none, none⟩) = none := by decide
example : union (.lt ⟨1, 2, 3, none, none⟩) (.gtEq ⟨1, 2, 4, none, none⟩) =
  some (.se (.gtEq Min) (.ltEq Max)) := by decide
example : union (.ltEq ⟨1, 2, 3, none, none⟩) (.gtEq ⟨1, 2, 4, none, none⟩) =
  some (.se (.gtEq Min) (.ltEq Max)) := by decide
example : Version.CompareTo ⟨1, 0, 0, some [.i 1], none⟩ ⟨1, 0, 0, some [.s "a"], none⟩ < 0 := by
  decide
example : Version.CompareTo ⟨1, 0, 0, some [.s "a"], none⟩ ⟨1, 0, 0, some [.s "a", .i 2], none⟩ < 0 := by
  decide
example : (⟨1, 0, 0, none, none⟩ : Version).NextPatch.ToString = "1.0.1" := by decide
example : (⟨1, 0, 0, some [.s "rc1"], none⟩ : Version).ToStable.ToString = "1.0.0" := by decide

end Semver
